import Mathlib

/-!
Verification development for the voice-driven question-answering front end.

The core under study is the speech-recognition hook
(`src/hooks/useSpeechRecognition.ts`): a small state machine that segments a
continuous recognition event stream into finalized utterances using a silence
timer, manages microphone-permission state and the manual-stop flag, and
auto-restarts the recognition session; plus the conversation orchestrator
(the application component) that turns finalized utterances into conversation
turns and folds streamed answer fragments into them.

The hook's React state (`isListening`, `interimTranscript`,
`finalizedUtterance`, `error`, `hasPermission`) and its refs
(`manualStopRef`, `currentUtteranceRef`, `utteranceFinalizationTimeoutRef`,
`recognitionRef`) are collected into one record, `HookState`.  Each event
handler and callback of the hook becomes a pure function from `HookState`
to `HookState` paired with the list of externally visible actions it performs
(calls to the recognition handle's `start()`/`stop()`, publication of a
finalized utterance via `setFinalizedUtterance`, and writes of `true`/`false`
to the manual-stop ref), in the order the source performs them.

JavaScript string truthiness (`if (s)`) is modelled as `s ≠ ""`, and
`String.prototype.trim` is modelled by `jsTrim` below (dropping whitespace
characters from both ends; the source's inputs are transcripts, for which
the ASCII whitespace predicate `Char.isWhitespace` is the relevant one).
The browser timer (`setTimeout`/`clearTimeout`) is modelled by an
`Option Nat` slot holding the id of the single armed timer, with a counter
producing fresh ids; re-arming overwrites (hence cancels) the previous timer,
and a timer-expiry event only has an effect while a timer is armed.
-/

/-- One result slot of a recognition event: `event.results[i]`, restricted to
its top alternative, as read by the hook (`isFinal` and `[0].transcript`).
A batch is the list of new slots, `event.results[event.resultIndex ..]`. -/
structure SpeechResult where
  isFinal : Bool
  transcript : String
deriving DecidableEq

/-- Externally visible actions of the hook, in program order: a call to the
recognition handle's `start()` or `stop()`, a `setFinalizedUtterance` whose
argument is non-trivial (a publication of a finalized utterance), and a write
to `manualStopRef.current`. -/
inductive Output where
  | recStart : Output
  | recStop : Output
  | publish : String → Output
  | setManualStop : Bool → Output
deriving DecidableEq

/-- The whole state of `useSpeechRecognition`: the five React state variables,
the three mutable refs, whether `recognitionRef.current` is non-null, and
whether the platform speech-recognition capability exists (environment,
never written by the hook's operations). -/
structure HookState where
  isListening : Bool
  interimTranscript : String
  finalizedUtterance : String
  error : Option String
  hasPermission : Option Bool
  manualStop : Bool
  currentUtterance : String
  timer : Option Nat
  timerCtr : Nat
  hasRecognition : Bool
  apiAvailable : Bool
deriving DecidableEq

/-- Model of JavaScript `String.prototype.trim` on the character list:
drop whitespace from the front, then from the back. -/
def trimChars (l : List Char) : List Char :=
  ((l.dropWhile Char.isWhitespace).reverse.dropWhile Char.isWhitespace).reverse

/-- Model of JavaScript `String.prototype.trim`. -/
def jsTrim (s : String) : String :=
  ⟨trimChars s.data⟩

/-- Error message set by `onerror` for `not-allowed` / `service-not-allowed`
(src/hooks/useSpeechRecognition.ts line 102). -/
def permissionDeniedMsg : String :=
  "Microphone permission denied. Please enable microphone access in your browser settings."

/-- Error message set when `startListening` is called while permission is
denied (line 189). -/
def cannotStartDeniedMsg : String :=
  "Cannot start listening: Microphone permission was denied."

/-- Error message when the recognition capability is absent (line 50). -/
def notSupportedMsg : String :=
  "Speech recognition is not supported in this browser."

/-- Error message set by `startListening` when the handle could not be
created (line 182). -/
def couldNotInitMsg : String :=
  "Speech recognition could not be initialized."

/-- Generic recognition error message (line 107). -/
def recognitionErrMsg (code : String) : String :=
  "Speech recognition error: " ++ code

/-- One iteration of the result-scanning loop of `onresult` (lines 70-76):
a final slot appends its transcript to `finalSegmentThisEvent` (the second
component), an interim slot appends to `interim` (the first component). -/
def scanStep (acc : String × String) (r : SpeechResult) : String × String :=
  if r.isFinal then (acc.1, acc.2 ++ r.transcript)
  else (acc.1 ++ r.transcript, acc.2)

/-- The result-scanning loop of `onresult` (lines 67-76): walk the new slots
accumulating `(interim, finalSegmentThisEvent)` in arrival order. -/
def scanResults (rs : List SpeechResult) : String × String :=
  rs.foldl scanStep ("", "")

/-- Accumulation of the final text of a batch, slot by slot. -/
def finalStep (a : String) (r : SpeechResult) : String :=
  if r.isFinal then a ++ r.transcript else a

/-- Accumulation of the interim text of a batch, slot by slot. -/
def interimStep (a : String) (r : SpeechResult) : String :=
  if r.isFinal then a else a ++ r.transcript

/-- The interim text carried by one batch: concatenation, in arrival order,
of the transcripts of its non-final slots. -/
def batchInterimText (rs : List SpeechResult) : String :=
  rs.foldl interimStep ""

/-- `processCurrentUtterance` (lines 35-45): if the accumulated text trims to
a non-empty string, publish the trimmed text as the finalized utterance and
clear the accumulator and the interim transcript; in all cases clear the
silence timer.  Returns the new state and the published utterance, if any. -/
def processCurrentUtterance (st : HookState) : HookState × Option String :=
  let pr :=
    if jsTrim st.currentUtterance ≠ "" then
      ({ st with
          finalizedUtterance := jsTrim st.currentUtterance
          currentUtterance := ""
          interimTranscript := "" },
       some (jsTrim st.currentUtterance))
    else (st, none)
  ({ pr.1 with timer := none }, pr.2)

/-- A publication, as an action list. -/
def pubOut : Option String → List Output
  | some s => [Output.publish s]
  | none => []

/-- `recognitionInstance.onresult` (lines 66-93): scan the new slots, replace
the interim transcript, append any final text to the current-utterance
accumulator, and if the batch carried any interim or final text, cancel the
previous silence timer and arm a fresh one. -/
def onresult (st : HookState) (rs : List SpeechResult) : HookState :=
  let interim := (scanResults rs).1
  let finalSegmentThisEvent := (scanResults rs).2
  let st1 := { st with interimTranscript := interim }
  let st2 :=
    if finalSegmentThisEvent ≠ "" then
      { st1 with currentUtterance := st1.currentUtterance ++ finalSegmentThisEvent }
    else st1
  if interim ≠ "" ∨ finalSegmentThisEvent ≠ "" then
    { st2 with timer := some st2.timerCtr, timerCtr := st2.timerCtr + 1 }
  else st2

/-- Expiry of the silence timer: the scheduled callback (line 89-91) runs
`processCurrentUtterance`.  A timer that is not armed (already cancelled)
does not fire. -/
def timerFire (st : HookState) : HookState × List Output :=
  if st.timer.isSome then
    let pc := processCurrentUtterance st
    (pc.1, pubOut pc.2)
  else (st, [])

/-- `recognitionInstance.onerror` (lines 95-110): `no-speech` clears the
error; `not-allowed` / `service-not-allowed` records the denial, sets the
manual-stop flag and flushes the pending utterance; other codes surface a
generic message.  In every case listening is set to false. -/
def onerror (st : HookState) (code : String) : HookState × List Output :=
  let pr : HookState × List Output :=
    if code = "no-speech" then
      ({ st with error := none }, [])
    else if code = "not-allowed" ∨ code = "service-not-allowed" then
      let st1 := { st with
        error := some permissionDeniedMsg
        hasPermission := some false
        manualStop := true }
      let pc := processCurrentUtterance st1
      (pc.1, Output.setManualStop true :: pubOut pc.2)
    else
      ({ st with error := some (recognitionErrMsg code) }, [])
  ({ pr.1 with isListening := false }, pr.2)

/-- `recognitionInstance.onend` (lines 112-137): listening becomes false;
if the stop was not manual the pending utterance is flushed; then, if the
stop was not manual, permission is not denied and the handle exists, one
restart attempt is made by calling the handle's `start()` (the inner
manual-stop re-check of line 125 is kept as in the source). -/
def onend (st : HookState) : HookState × List Output :=
  let st0 := { st with isListening := false }
  let pr : HookState × List Output :=
    if !st0.manualStop then
      let pc := processCurrentUtterance st0
      (pc.1, pubOut pc.2)
    else (st0, [])
  let st1 := pr.1
  if !st1.manualStop ∧ st1.hasPermission ≠ some false ∧ st1.hasRecognition then
    if !st1.manualStop then (st1, pr.2 ++ [Output.recStart])
    else (st1, pr.2)
  else (st1, pr.2)

/-- `startListening` (lines 171-205): unconditionally clear the manual-stop
flag, the current-utterance accumulator, the interim transcript and the
finalized utterance; create the recognition handle if absent (setting the
not-supported / could-not-initialize errors when the capability is missing);
then, if a handle exists and we are not already listening: refuse with a
permission error if permission is denied, otherwise call the handle's
`start()`. -/
def startListening (st : HookState) : HookState × List Output :=
  let stR := { st with
    manualStop := false
    currentUtterance := ""
    interimTranscript := ""
    finalizedUtterance := "" }
  if stR.hasRecognition ∨ stR.apiAvailable then
    let st1 := { stR with hasRecognition := true }
    if st1.hasRecognition ∧ ¬ st1.isListening then
      if st1.hasPermission = some false then
        ({ st1 with error := some cannotStartDeniedMsg },
         [Output.setManualStop false])
      else
        (st1, [Output.setManualStop false, Output.recStart])
    else (st1, [Output.setManualStop false])
  else
    ({ stR with error := some couldNotInitMsg, hasPermission := some false },
     [Output.setManualStop false])

/-- The first half of `stopListening` (lines 208-212): set the manual-stop
flag and cancel the silence timer. -/
def stopListeningPre (st : HookState) : HookState :=
  { st with manualStop := true, timer := none }

/-- `stopListening` (lines 207-220): set the manual-stop flag, cancel the
silence timer, flush the pending utterance, then call the handle's `stop()`
if a handle exists and we were listening, and set listening to false. -/
def stopListening (st : HookState) : HookState × List Output :=
  let st1 := stopListeningPre st
  let pc := processCurrentUtterance st1
  let outs := Output.setManualStop true :: pubOut pc.2
  let pr : HookState × List Output :=
    if pc.1.hasRecognition ∧ st.isListening then
      (pc.1, outs ++ [Output.recStop])
    else (pc.1, outs)
  ({ pr.1 with isListening := false }, pr.2)

/-- `clearFinalizedUtterance` (lines 31-33): reset the finalized utterance to
the empty string. -/
def clearFinalizedUtterance (st : HookState) : HookState :=
  { st with finalizedUtterance := "" }

/-- The events the hook reacts to: a recognition result batch (its list of
new slots), silence-timer expiry, a recognition error with its code, session
end, and the three consumer-facing calls. -/
inductive HookEvent where
  | result : List SpeechResult → HookEvent
  | timerExpiry : HookEvent
  | errEvt : String → HookEvent
  | endEvt : HookEvent
  | startReq : HookEvent
  | stopReq : HookEvent
  | clearReq : HookEvent

/-- One step of the hook: dispatch an event to its handler. -/
def step (st : HookState) (e : HookEvent) : HookState × List Output :=
  match e with
  | HookEvent.result rs => (onresult st rs, [])
  | HookEvent.timerExpiry => timerFire st
  | HookEvent.errEvt code => onerror st code
  | HookEvent.endEvt => onend st
  | HookEvent.startReq => startListening st
  | HookEvent.stopReq => stopListening st
  | HookEvent.clearReq => (clearFinalizedUtterance st, [])

/-- Run a sequence of events, concatenating the emitted actions. -/
def run (st : HookState) : List HookEvent → HookState × List Output
  | [] => (st, [])
  | e :: es =>
    let p := step st e
    let q := run p.1 es
    (q.1, p.2 ++ q.2)

/-- The utterances published during a trace of actions, in order. -/
def publications (outs : List Output) : List String :=
  outs.filterMap fun o =>
    match o with
    | Output.publish s => some s
    | _ => none

/-- The number of calls to the recognition handle's `start()` in a trace. -/
def countStart (outs : List Output) : Nat :=
  (outs.filter fun o => o = Output.recStart).length

/-- The hook's initial state (lines 20-29): not listening, empty transcripts,
no error, permission unknown, manual-stop unset, no accumulated text, no
timer, no recognition handle yet. -/
def initState (apiAvailable : Bool) : HookState :=
  { isListening := false
    interimTranscript := ""
    finalizedUtterance := ""
    error := none
    hasPermission := none
    manualStop := false
    currentUtterance := ""
    timer := none
    timerCtr := 0
    hasRecognition := false
    apiAvailable := apiAvailable }

/-- Iterated calls to `startListening`, collecting the actions. -/
def iterateStart : HookState → Nat → HookState × List Output
  | st, 0 => (st, [])
  | st, n + 1 =>
    let p := startListening st
    let q := iterateStart p.1 n
    (q.1, p.2 ++ q.2)

/-- The final text carried by one batch: the concatenation, in arrival order,
of the transcripts of its final slots. -/
def batchFinalText (rs : List SpeechResult) : String :=
  rs.foldl finalStep ""

/-- The concatenation, in arrival order, of all final fragments of a sequence
of batches. -/
def concatFinals (batches : List (List SpeechResult)) : String :=
  batches.foldl (fun a b => a ++ batchFinalText b) ""

/-- Every slot of every batch is final. -/
def allFinal (batches : List (List SpeechResult)) : Prop :=
  ∀ b ∈ batches, ∀ r ∈ b, r.isFinal = true

instance : DecidablePred allFinal := fun batches =>
  inferInstanceAs (Decidable (∀ b ∈ batches, ∀ r ∈ b, r.isFinal = true))

/-! ## The conversation orchestrator (the application component)

`ConversationTurn` is the record of `src/types.ts`; the effect reacting to a
new finalized utterance and the per-chunk / error / completion updates of
`processStream` are the anonymous functions of the application component
(`App`, lines 76-122).  `Date.now()` is modelled by a `Nat` millisecond
timestamp passed in as a parameter; the turn id is its decimal rendering,
exactly as `Date.now().toString()` produces it. -/

/-- One question/answer turn of the conversation log (`src/types.ts`). -/
structure ConversationTurn where
  id : String
  utterance : String
  answer : Option String
  answerError : Option String
  isProcessingAnswer : Bool
deriving DecidableEq

/-- The turn created by the finalized-utterance effect (App lines 78-85):
id is `Date.now().toString()`, the utterance is the finalized text, the
answer starts empty and the turn is marked as processing. -/
def mkTurn (nowMs : Nat) (finalizedUtterance : String) : ConversationTurn :=
  { id := toString nowMs
    utterance := finalizedUtterance
    answer := some ""
    answerError := none
    isProcessingAnswer := true }

/-- The guard and append of the finalized-utterance effect (App lines 77-87):
a new turn is appended only when the finalized utterance is truthy (non-empty)
and the session is active. -/
def appOnFinalizedUtterance (conv : List ConversationTurn)
    (finalizedUtterance : String) (isSessionActive : Bool) (nowMs : Nat) :
    List ConversationTurn :=
  if finalizedUtterance ≠ "" ∧ isSessionActive then
    conv ++ [mkTurn nowMs finalizedUtterance]
  else conv

/-- The per-turn update applied for one stream chunk (App line 96): a turn
whose id matches gets the chunk appended to its answer; others are returned
unchanged. -/
def appendChunkTurn (newTurnId textChunk : String) (t : ConversationTurn) :
    ConversationTurn :=
  if t.id = newTurnId then
    { t with answer := some ((t.answer.getD "") ++ textChunk) }
  else t

/-- One stream chunk applied to the conversation (App lines 92-99): skipped
entirely when the chunk text is falsy (empty), otherwise mapped over all
turns keyed by the captured id. -/
def appendChunk (conv : List ConversationTurn) (newTurnId textChunk : String) :
    List ConversationTurn :=
  if textChunk ≠ "" then conv.map (appendChunkTurn newTurnId textChunk)
  else conv

/-- The per-turn update of the stream-error handler (App lines 104-110). -/
def streamErrTurn (newTurnId errorMessage : String) (t : ConversationTurn) :
    ConversationTurn :=
  if t.id = newTurnId then
    { t with answerError := some errorMessage, isProcessingAnswer := false }
  else t

/-- The stream-error handler applied to the conversation. -/
def streamError (conv : List ConversationTurn) (newTurnId errorMessage : String) :
    List ConversationTurn :=
  conv.map (streamErrTurn newTurnId errorMessage)

/-- The per-turn update of the `finally` block (App lines 112-116). -/
def streamDoneTurn (newTurnId : String) (t : ConversationTurn) :
    ConversationTurn :=
  if t.id = newTurnId then { t with isProcessingAnswer := false } else t

/-- The `finally` block applied to the conversation. -/
def streamDone (conv : List ConversationTurn) (newTurnId : String) :
    List ConversationTurn :=
  conv.map (streamDoneTurn newTurnId)

/-- `processStream` when the stream yields `chunks` and completes without
error (App lines 89-118): fold the chunk updates, then run the `finally`
update. -/
def processStreamOk (conv : List ConversationTurn) (newTurnId : String)
    (chunks : List String) : List ConversationTurn :=
  streamDone (chunks.foldl (fun c ch => appendChunk c newTurnId ch) conv) newTurnId

/-- `processStream` when the stream yields `yielded` chunks and then fails
with `errorMessage`: fold the chunk updates, run the catch update, then the
`finally` update. -/
def processStreamErr (conv : List ConversationTurn) (newTurnId : String)
    (yielded : List String) (errorMessage : String) : List ConversationTurn :=
  streamDone
    (streamError (yielded.foldl (fun c ch => appendChunk c newTurnId ch) conv)
      newTurnId errorMessage)
    newTurnId

/-- Concatenation of stream fragments in yield order. -/
def strJoin (l : List String) : String :=
  l.foldl (fun a s => a ++ s) ""

/-! ## Basic lemmas about the string model -/

/-- The head of what `dropWhile` leaves does not satisfy the predicate. -/
theorem dropWhile_head_false {α : Type} {p : α → Bool} {l : List α} {a : α}
    {t : List α} (h : l.dropWhile p = a :: t) : p a = false := by
  induction l with
  | nil => simp at h
  | cons x xs ih =>
    rw [List.dropWhile_cons] at h
    by_cases hx : p x
    · rw [if_pos hx] at h
      exact ih h
    · rw [if_neg hx] at h
      injection h with h1 _
      subst h1
      simpa using hx

/-- `dropWhile` is idempotent. -/
theorem dropWhile_idem {α : Type} (p : α → Bool) (l : List α) :
    (l.dropWhile p).dropWhile p = l.dropWhile p := by
  cases hd : l.dropWhile p with
  | nil => rfl
  | cons a t =>
    exact List.dropWhile_cons_of_neg (by simp [dropWhile_head_false hd])

/-- Trimming both ends is idempotent. -/
theorem trimChars_idem (l : List Char) : trimChars (trimChars l) = trimChars l := by
  unfold trimChars
  set p := Char.isWhitespace with hp
  set a := l.dropWhile p with ha
  set b := a.reverse.dropWhile p with hb
  have h1 : b.reverse.dropWhile p = b.reverse := by
    cases hc : b.reverse with
    | nil => simp [hc]
    | cons x xs =>
      have hsuf : b <:+ a.reverse := hb ▸ List.dropWhile_suffix p
      have hpre : b.reverse <+: a := by
        have h2 : b.reverse <+: a.reverse.reverse := List.reverse_prefix.mpr hsuf
        simpa using h2
      obtain ⟨r, hr⟩ := hpre
      rw [hc] at hr
      have hla : l.dropWhile p = x :: (xs ++ r) := by
        rw [← ha, ← hr]
        rfl
      have hx : p x = false := dropWhile_head_false hla
      exact List.dropWhile_cons_of_neg (by simp [hx])
  rw [h1, List.reverse_reverse, hb, dropWhile_idem]

/-- `jsTrim` is idempotent: a trimmed string is its own trim. -/
theorem jsTrim_idem (s : String) : jsTrim (jsTrim s) = jsTrim s :=
  String.ext (trimChars_idem s.data)

/-- A concatenation of strings is empty exactly when both sides are. -/
theorem strAppend_eq_empty {s t : String} : s ++ t = "" ↔ s = "" ∧ t = "" := by
  constructor
  · intro h
    have hd : s.data ++ t.data = ([] : List Char) := by
      rw [← String.data_append, h]
    have hnil := List.append_eq_nil.mp hd
    exact ⟨String.ext (by simp [hnil.1]), String.ext (by simp [hnil.2])⟩
  · rintro ⟨h1, h2⟩
    rw [h1, h2]
    rfl

/-! ## Frame lemmas for the segmentation engine -/

/-- Full characterization of `processCurrentUtterance` as a conditional. -/
theorem pcu_spec (st : HookState) :
    processCurrentUtterance st =
      if jsTrim st.currentUtterance = "" then ({ st with timer := none }, none)
      else
        ({ st with
            finalizedUtterance := jsTrim st.currentUtterance
            currentUtterance := ""
            interimTranscript := ""
            timer := none },
         some (jsTrim st.currentUtterance)) := by
  unfold processCurrentUtterance
  by_cases h : jsTrim st.currentUtterance = "" <;> simp [h]

/-- `processCurrentUtterance` does not touch the manual-stop flag. -/
@[simp] theorem pcu_manualStop (st : HookState) :
    (processCurrentUtterance st).1.manualStop = st.manualStop := by
  rw [pcu_spec]
  by_cases h : jsTrim st.currentUtterance = "" <;> simp [h]

/-- `processCurrentUtterance` does not touch the permission state. -/
@[simp] theorem pcu_hasPermission (st : HookState) :
    (processCurrentUtterance st).1.hasPermission = st.hasPermission := by
  rw [pcu_spec]
  by_cases h : jsTrim st.currentUtterance = "" <;> simp [h]

/-- `processCurrentUtterance` does not touch the recognition handle. -/
@[simp] theorem pcu_hasRecognition (st : HookState) :
    (processCurrentUtterance st).1.hasRecognition = st.hasRecognition := by
  rw [pcu_spec]
  by_cases h : jsTrim st.currentUtterance = "" <;> simp [h]

/-- `processCurrentUtterance` does not touch the listening flag. -/
@[simp] theorem pcu_isListening (st : HookState) :
    (processCurrentUtterance st).1.isListening = st.isListening := by
  rw [pcu_spec]
  by_cases h : jsTrim st.currentUtterance = "" <;> simp [h]

/-- `processCurrentUtterance` does not touch the error value. -/
@[simp] theorem pcu_error (st : HookState) :
    (processCurrentUtterance st).1.error = st.error := by
  rw [pcu_spec]
  by_cases h : jsTrim st.currentUtterance = "" <;> simp [h]

/-- `processCurrentUtterance` always clears the silence timer. -/
@[simp] theorem pcu_timer (st : HookState) :
    (processCurrentUtterance st).1.timer = none := by
  rw [pcu_spec]
  by_cases h : jsTrim st.currentUtterance = "" <;> simp [h]

/-! ## Characterization of the result-scanning loop -/

/-- A string fold whose step only appends on the right factors through the
empty accumulator. -/
theorem foldl_accumulate {α : Type} (f : String → α → String)
    (hf : ∀ a x, f a x = a ++ f "" x) (l : List α) (a : String) :
    l.foldl f a = a ++ l.foldl f "" := by
  induction l generalizing a with
  | nil => simp
  | cons x xs ih =>
    rw [List.foldl_cons, List.foldl_cons, ih, ih (f "" x), hf a x,
      String.append_assoc]

theorem finalStep_accum (a : String) (r : SpeechResult) :
    finalStep a r = a ++ finalStep "" r := by
  unfold finalStep
  by_cases h : r.isFinal <;> simp [h]

theorem interimStep_accum (a : String) (r : SpeechResult) :
    interimStep a r = a ++ interimStep "" r := by
  unfold interimStep
  by_cases h : r.isFinal <;> simp [h]

/-- The scanning loop of `onresult` computes exactly the batch's interim text
and final text. -/
theorem scanResults_eq (rs : List SpeechResult) :
    scanResults rs = (batchInterimText rs, batchFinalText rs) := by
  unfold scanResults batchInterimText batchFinalText
  suffices hgen : ∀ acc : String × String,
      rs.foldl scanStep acc =
        (acc.1 ++ rs.foldl interimStep "", acc.2 ++ rs.foldl finalStep "") by
    rw [hgen ("", "")]
    simp
  induction rs with
  | nil => intro acc; simp
  | cons r rs ih =>
    intro acc
    rw [List.foldl_cons, List.foldl_cons, List.foldl_cons, ih,
      foldl_accumulate interimStep interimStep_accum rs (interimStep "" r),
      foldl_accumulate finalStep finalStep_accum rs (finalStep "" r)]
    unfold scanStep interimStep finalStep
    by_cases h : r.isFinal <;> simp [h, String.append_assoc]

/-- Final text of a batch in which every transcript is empty. -/
theorem batchFinalText_empty {rs : List SpeechResult}
    (h : ∀ r ∈ rs, r.transcript = "") : batchFinalText rs = "" := by
  unfold batchFinalText
  induction rs with
  | nil => rfl
  | cons r rs ih =>
    rw [List.foldl_cons,
      foldl_accumulate finalStep finalStep_accum rs (finalStep "" r),
      ih fun x hx => h x (List.mem_cons_of_mem r hx)]
    have hr := h r (List.mem_cons_self r rs)
    unfold finalStep
    by_cases hf : r.isFinal <;> simp [hf, hr]

/-- Interim text of a batch in which every transcript is empty. -/
theorem batchInterimText_empty {rs : List SpeechResult}
    (h : ∀ r ∈ rs, r.transcript = "") : batchInterimText rs = "" := by
  unfold batchInterimText
  induction rs with
  | nil => rfl
  | cons r rs ih =>
    rw [List.foldl_cons,
      foldl_accumulate interimStep interimStep_accum rs (interimStep "" r),
      ih fun x hx => h x (List.mem_cons_of_mem r hx)]
    have hr := h r (List.mem_cons_self r rs)
    unfold interimStep
    by_cases hf : r.isFinal <;> simp [hf, hr]

/-- Interim text of an all-final batch. -/
theorem batchInterimText_allFinal {rs : List SpeechResult}
    (h : ∀ r ∈ rs, r.isFinal = true) : batchInterimText rs = "" := by
  unfold batchInterimText
  induction rs with
  | nil => rfl
  | cons r rs ih =>
    rw [List.foldl_cons,
      foldl_accumulate interimStep interimStep_accum rs (interimStep "" r),
      ih fun x hx => h x (List.mem_cons_of_mem r hx)]
    have hr := h r (List.mem_cons_self r rs)
    unfold interimStep
    simp [hr]

/-- Characterization of `onresult` on an all-final batch: the interim
transcript becomes empty; if the batch carries final text it is appended to
the accumulator and a fresh timer is armed, otherwise nothing else changes. -/
theorem onresult_allFinal {b : List SpeechResult}
    (hb : ∀ r ∈ b, r.isFinal = true) (st : HookState) :
    onresult st b =
      if batchFinalText b = "" then { st with interimTranscript := "" }
      else
        { st with
            interimTranscript := ""
            currentUtterance := st.currentUtterance ++ batchFinalText b
            timer := some st.timerCtr
            timerCtr := st.timerCtr + 1 } := by
  unfold onresult
  rw [scanResults_eq, batchInterimText_allFinal hb]
  by_cases hf : batchFinalText b = "" <;> simp [hf]

/-! ## Claim C3 -/

/--
C3 (amended): for every result batch whose new slots consist only of final
results whose transcripts are all the empty string, processing the batch
replaces the interim transcript with the empty string and changes nothing
else; in particular the silence timer is left exactly as it was: it is
neither re-armed nor cancelled, and the accumulated text, the finalized
utterance, the error, the permission state and the listening flag are
unchanged.
-/
theorem claim_C3_theorem (st : HookState) (rs : List SpeechResult)
    (h : ∀ r ∈ rs, r.isFinal = true ∧ r.transcript = "") :
    onresult st rs = { st with interimTranscript := "" } := by
  have hf : batchFinalText rs = "" := batchFinalText_empty fun r hr => (h r hr).2
  rw [onresult_allFinal (fun r hr => (h r hr).1) st, if_pos hf]

/--
C3 witness: a batch holding one final slot with empty transcript, processed
in a concrete state, only empties the interim transcript.
-/
theorem claim_C3_witness :
    onresult
        { isListening := true, interimTranscript := "uh",
          finalizedUtterance := "", error := none, hasPermission := some true,
          manualStop := false, currentUtterance := "hello", timer := some 2,
          timerCtr := 3, hasRecognition := true, apiAvailable := true }
        [{ isFinal := true, transcript := "" }] =
      { isListening := true, interimTranscript := "",
        finalizedUtterance := "", error := none, hasPermission := some true,
        manualStop := false, currentUtterance := "hello", timer := some 2,
        timerCtr := 3, hasRecognition := true, apiAvailable := true } := by
  have h := claim_C3_theorem
    { isListening := true, interimTranscript := "uh",
      finalizedUtterance := "", error := none, hasPermission := some true,
      manualStop := false, currentUtterance := "hello", timer := some 2,
      timerCtr := 3, hasRecognition := true, apiAvailable := true }
    [{ isFinal := true, transcript := "" }] (by decide)
  rw [h]

/--
C3 counterexample: the claim as stated is false on the code.  Processing a
batch whose only slot is final with an empty transcript, in a state with no
armed timer and a non-empty interim transcript, does not arm the silence
timer (the timer slot stays `none`, while the claim requires an armed
timer), and it does change observable state (the published interim
transcript goes from "uh" to "").
-/
theorem claim_C3_counterexample :
    (onresult
        { isListening := true, interimTranscript := "uh",
          finalizedUtterance := "", error := none, hasPermission := some true,
          manualStop := false, currentUtterance := "hello", timer := none,
          timerCtr := 3, hasRecognition := true, apiAvailable := true }
        [{ isFinal := true, transcript := "" }]).timer = none ∧
    (onresult
        { isListening := true, interimTranscript := "uh",
          finalizedUtterance := "", error := none, hasPermission := some true,
          manualStop := false, currentUtterance := "hello", timer := none,
          timerCtr := 3, hasRecognition := true, apiAvailable := true }
        [{ isFinal := true, transcript := "" }]).interimTranscript ≠ "uh" := by
  decide

/-! ## Claim C4 -/

/-- `countStart` distributes over concatenation of traces. -/
theorem countStart_append (l l' : List Output) :
    countStart (l ++ l') = countStart l + countStart l' := by
  simp [countStart, List.filter_append]

/-- A publication contributes no `start()` call to the trace. -/
theorem countStart_pubOut (o : Option String) : countStart (pubOut o) = 0 := by
  cases o <;> simp [pubOut, countStart]

/-- Characterization of `onend`: with the manual-stop flag set, nothing
but the listening flag changes and no action is taken; otherwise the pending
utterance is flushed and, when permission is not denied and a handle exists,
exactly one `start()` call is appended to the trace. -/
theorem onend_spec (st : HookState) :
    onend st =
      if st.manualStop then ({ st with isListening := false }, [])
      else if st.hasPermission ≠ some false ∧ st.hasRecognition then
        ((processCurrentUtterance { st with isListening := false }).1,
         pubOut (processCurrentUtterance { st with isListening := false }).2 ++
           [Output.recStart])
      else
        ((processCurrentUtterance { st with isListening := false }).1,
         pubOut (processCurrentUtterance { st with isListening := false }).2) := by
  unfold onend
  by_cases hm : st.manualStop
  · simp [hm]
  · rw [Bool.not_eq_true] at hm
    by_cases hc : st.hasPermission ≠ some false ∧ st.hasRecognition = true
    · simp [hm, hc]
    · simp only [hm, if_neg hc]
      simp [hm]
      intro h1
      cases hbr : st.hasRecognition with
      | false => rfl
      | true => exact absurd ⟨h1, hbr⟩ hc

/--
C4: for every session-end event, if the manual-stop flag is not set,
permission has not become denied and the recognition handle exists, exactly
one restart attempt (one call to the handle's `start()`) is made; if the
manual-stop flag is set, zero restart attempts are made; and in every case
at most one restart attempt is made per end event.
-/
theorem claim_C4_theorem (st : HookState) :
    (st.manualStop = false → st.hasPermission ≠ some false →
      st.hasRecognition = true → countStart (onend st).2 = 1) ∧
    (st.manualStop = true → countStart (onend st).2 = 0) ∧
    countStart (onend st).2 ≤ 1 := by
  rw [onend_spec]
  by_cases hm : st.manualStop
  · rw [if_pos hm]
    exact ⟨fun h1 _ _ => by simp [h1] at hm, fun _ => rfl, Nat.zero_le 1⟩
  · rw [Bool.not_eq_true] at hm
    rw [if_neg (by simp [hm])]
    by_cases hc : st.hasPermission ≠ some false ∧ st.hasRecognition = true
    · rw [if_pos hc]
      refine ⟨fun _ _ _ => ?_, fun h2 => by simp [h2] at hm, ?_⟩
      · rw [countStart_append, countStart_pubOut]
        decide
      · rw [countStart_append, countStart_pubOut]
        decide
    · rw [if_neg hc]
      refine ⟨fun _ hp hr => absurd ⟨hp, hr⟩ hc,
        fun h2 => by simp [h2] at hm, ?_⟩
      rw [countStart_pubOut]
      decide

/--
C4 witness: a concrete end event with the manual-stop flag clear, permission
granted and a handle present makes exactly one restart attempt, and the same
state with the flag set makes none.
-/
theorem claim_C4_witness :
    countStart (onend
      { isListening := true, interimTranscript := "",
        finalizedUtterance := "", error := none, hasPermission := some true,
        manualStop := false, currentUtterance := "", timer := none,
        timerCtr := 0, hasRecognition := true, apiAvailable := true }).2 = 1 ∧
    countStart (onend
      { isListening := true, interimTranscript := "",
        finalizedUtterance := "", error := none, hasPermission := some true,
        manualStop := true, currentUtterance := "", timer := none,
        timerCtr := 0, hasRecognition := true, apiAvailable := true }).2 = 0 :=
  ⟨(claim_C4_theorem
      { isListening := true, interimTranscript := "",
        finalizedUtterance := "", error := none, hasPermission := some true,
        manualStop := false, currentUtterance := "", timer := none,
        timerCtr := 0, hasRecognition := true, apiAvailable := true }).1
      rfl (by decide) rfl,
   (claim_C4_theorem
      { isListening := true, interimTranscript := "",
        finalizedUtterance := "", error := none, hasPermission := some true,
        manualStop := true, currentUtterance := "", timer := none,
        timerCtr := 0, hasRecognition := true, apiAvailable := true }).2.1 rfl⟩

/-! ## Claim C5 -/

/--
C5: calling `stopListening` while the accumulated final text trims to a
non-empty string finalizes that text immediately, with no timer wait: the
trimmed text is published as the finalized utterance, the silence timer is
cancelled, and the trace of actions is exactly the manual-stop flag set to
true, then the publication, then (when a handle exists and we were
listening) the call to the handle's `stop()` — so the flag is set before
the underlying `stop()` is invoked.
-/
theorem claim_C5_theorem (st : HookState)
    (h : jsTrim st.currentUtterance ≠ "") :
    stopListening st =
      ({ st with
          manualStop := true
          timer := none
          finalizedUtterance := jsTrim st.currentUtterance
          currentUtterance := ""
          interimTranscript := ""
          isListening := false },
       Output.setManualStop true :: Output.publish (jsTrim st.currentUtterance) ::
         (if st.hasRecognition ∧ st.isListening then [Output.recStop] else [])) := by
  simp only [stopListening, stopListeningPre, pcu_spec]
  by_cases hg : st.hasRecognition = true ∧ st.isListening = true <;>
    simp [h, hg, pubOut]

/--
C5 witness: stopping in a concrete listening state with accumulated text
" hi there " immediately publishes "hi there", after setting the
manual-stop flag and before calling the handle's `stop()`.
-/
theorem claim_C5_witness :
    stopListening
        { isListening := true, interimTranscript := "the",
          finalizedUtterance := "", error := none, hasPermission := some true,
          manualStop := false, currentUtterance := " hi there ",
          timer := some 4, timerCtr := 5, hasRecognition := true,
          apiAvailable := true } =
      ({ isListening := false, interimTranscript := "",
          finalizedUtterance := "hi there", error := none,
          hasPermission := some true, manualStop := true,
          currentUtterance := "", timer := none, timerCtr := 5,
          hasRecognition := true, apiAvailable := true },
       [Output.setManualStop true, Output.publish "hi there",
        Output.recStop]) := by
  have h := claim_C5_theorem
    { isListening := true, interimTranscript := "the",
      finalizedUtterance := "", error := none, hasPermission := some true,
      manualStop := false, currentUtterance := " hi there ",
      timer := some 4, timerCtr := 5, hasRecognition := true,
      apiAvailable := true } (by decide)
  rw [h]
  decide

/-! ## Claim C6 -/

/--
C6: at every finalization site (`processCurrentUtterance`, reached from
timer expiry, stop, or a flushing error), accumulated text that trims to the
empty string publishes nothing and leaves the finalized utterance untouched;
whenever a finalized utterance is published it is non-empty and equal to its
own whitespace-trim; the orchestrator creates no turn for an empty finalized
utterance; and if no turn of the conversation log has an empty utterance,
none has one after the finalized-utterance effect runs, for any published
value: an empty turn never appears.
-/
theorem claim_C6_theorem (st : HookState) (conv : List ConversationTurn)
    (active : Bool) (nowMs : Nat) (f : String)
    (hconv : ∀ t ∈ conv, t.utterance ≠ "") :
    (jsTrim st.currentUtterance = "" →
      (processCurrentUtterance st).2 = none ∧
      (processCurrentUtterance st).1.finalizedUtterance = st.finalizedUtterance) ∧
    (∀ s, (processCurrentUtterance st).2 = some s → s ≠ "" ∧ jsTrim s = s) ∧
    appOnFinalizedUtterance conv "" active nowMs = conv ∧
    (∀ t ∈ appOnFinalizedUtterance conv f active nowMs, t.utterance ≠ "") := by
  refine ⟨fun h => ?_, fun s hs => ?_, ?_, fun t ht => ?_⟩
  · rw [pcu_spec, if_pos h]
    exact ⟨rfl, rfl⟩
  · rw [pcu_spec] at hs
    by_cases h : jsTrim st.currentUtterance = ""
    · rw [if_pos h] at hs
      cases hs
    · rw [if_neg h] at hs
      injection hs with hs
      rw [← hs]
      exact ⟨h, jsTrim_idem _⟩
  · simp [appOnFinalizedUtterance]
  · unfold appOnFinalizedUtterance at ht
    by_cases hc : f ≠ "" ∧ active = true
    · rw [if_pos hc] at ht
      rcases List.mem_append.mp ht with h1 | h2
      · exact hconv t h1
      · have h3 : t = mkTurn nowMs f := by simpa using h2
        rw [h3]
        exact hc.1
    · rw [if_neg hc] at ht
      exact hconv t ht

/--
C6 witness: accumulated text that is pure whitespace publishes nothing at a
concrete state.
-/
theorem claim_C6_witness :
    (processCurrentUtterance
      { isListening := true, interimTranscript := "x",
        finalizedUtterance := "", error := none, hasPermission := some true,
        manualStop := false, currentUtterance := "  ", timer := some 0,
        timerCtr := 1, hasRecognition := true, apiAvailable := true }).2 = none :=
  ((claim_C6_theorem
      { isListening := true, interimTranscript := "x",
        finalizedUtterance := "", error := none, hasPermission := some true,
        manualStop := false, currentUtterance := "  ", timer := some 0,
        timerCtr := 1, hasRecognition := true, apiAvailable := true }
      [] true 0 "q" (by simp)).1 (by decide)).1

/-! ## Claim C7 -/

/-- `startListening` under denied permission: no `start()` call is made and
the permission stays denied. -/
theorem startListening_denied (st : HookState)
    (hp : st.hasPermission = some false) :
    Output.recStart ∉ (startListening st).2 ∧
    (startListening st).1.hasPermission = some false := by
  unfold startListening
  by_cases hr : st.hasRecognition <;> by_cases ha : st.apiAvailable <;>
    by_cases hl : st.isListening <;> simp [hr, ha, hl, hp]

/-- `startListening` under denied permission with a handle and not
listening surfaces the permission error. -/
theorem startListening_denied_error (st : HookState)
    (hp : st.hasPermission = some false) (hr : st.hasRecognition = true)
    (hl : st.isListening = false) :
    (startListening st).1.error = some cannotStartDeniedMsg := by
  unfold startListening
  simp [hp, hr, hl]

/-- Any number of `startListening` calls under denied permission makes no
`start()` call, and permission stays denied. -/
theorem iterateStart_denied :
    ∀ (n : Nat) (st : HookState), st.hasPermission = some false →
      Output.recStart ∉ (iterateStart st n).2 ∧
      (iterateStart st n).1.hasPermission = some false
  | 0, st, hp => by simpa [iterateStart] using hp
  | n + 1, st, hp => by
    have h1 := startListening_denied st hp
    have h2 := iterateStart_denied n (startListening st).1 h1.2
    simp only [iterateStart]
    refine ⟨fun h => ?_, h2.2⟩
    rcases List.mem_append.mp h with h | h
    · exact h1.1 h
    · exact h2.1 h

/-- Characterization of `onerror` on a permission error: the denial is
recorded, the manual-stop flag is set, the denied message is surfaced,
listening stops, and pending accumulated text is flushed. -/
theorem onerror_denied_spec (st : HookState) (code : String)
    (hc : code = "not-allowed" ∨ code = "service-not-allowed") :
    onerror st code =
      if jsTrim st.currentUtterance = "" then
        ({ st with
            error := some permissionDeniedMsg
            hasPermission := some false
            manualStop := true
            timer := none
            isListening := false },
         [Output.setManualStop true])
      else
        ({ st with
            error := some permissionDeniedMsg
            hasPermission := some false
            manualStop := true
            finalizedUtterance := jsTrim st.currentUtterance
            currentUtterance := ""
            interimTranscript := ""
            timer := none
            isListening := false },
         [Output.setManualStop true,
          Output.publish (jsTrim st.currentUtterance)]) := by
  have hns : code ≠ "no-speech" := by
    rcases hc with h | h <;> subst h <;> decide
  simp only [onerror, if_neg hns, if_pos hc, pcu_spec]
  by_cases ht : jsTrim st.currentUtterance = "" <;> simp [ht, pubOut]

/--
C7: after a not-allowed (or service-not-allowed) recognition error in a
state with a recognition handle, permission is recorded as denied, the
manual-stop flag is set, listening stops, a permission-denied message is
surfaced, pending accumulated text is flushed (published exactly when it
trims non-empty), the next `startListening` call surfaces a permission
error, and no number of subsequent `startListening` calls ever invokes the
handle's `start()` while permission remains denied — which those calls
themselves never change.
-/
theorem claim_C7_theorem (st : HookState) (code : String)
    (hc : code = "not-allowed" ∨ code = "service-not-allowed")
    (hr : st.hasRecognition = true) :
    (onerror st code).1.hasPermission = some false ∧
    (onerror st code).1.manualStop = true ∧
    (onerror st code).1.error = some permissionDeniedMsg ∧
    (onerror st code).1.isListening = false ∧
    publications (onerror st code).2 =
      (if jsTrim st.currentUtterance = "" then []
       else [jsTrim st.currentUtterance]) ∧
    (startListening (onerror st code).1).1.error = some cannotStartDeniedMsg ∧
    ∀ n, Output.recStart ∉ (iterateStart (onerror st code).1 n).2 := by
  rw [onerror_denied_spec st code hc]
  by_cases ht : jsTrim st.currentUtterance = ""
  · rw [if_pos ht]
    refine ⟨rfl, rfl, rfl, rfl, by simp [publications, ht], ?_, ?_⟩
    · exact startListening_denied_error _ rfl hr rfl
    · exact fun n => (iterateStart_denied n _ rfl).1
  · rw [if_neg ht]
    refine ⟨rfl, rfl, rfl, rfl, by simp [publications, ht], ?_, ?_⟩
    · exact startListening_denied_error _ rfl hr rfl
    · exact fun n => (iterateStart_denied n _ rfl).1

/--
C7 witness: a concrete not-allowed error records the denial and three
subsequent `startListening` calls make no `start()` call.
-/
theorem claim_C7_witness :
    (onerror
      { isListening := true, interimTranscript := "",
        finalizedUtterance := "", error := none, hasPermission := some true,
        manualStop := false, currentUtterance := "ok", timer := none,
        timerCtr := 0, hasRecognition := true, apiAvailable := true }
      "not-allowed").1.hasPermission = some false ∧
    Output.recStart ∉
      (iterateStart
        (onerror
          { isListening := true, interimTranscript := "",
            finalizedUtterance := "", error := none,
            hasPermission := some true, manualStop := false,
            currentUtterance := "ok", timer := none, timerCtr := 0,
            hasRecognition := true, apiAvailable := true }
          "not-allowed").1 3).2 := by
  have h := claim_C7_theorem
    { isListening := true, interimTranscript := "",
      finalizedUtterance := "", error := none, hasPermission := some true,
      manualStop := false, currentUtterance := "ok", timer := none,
      timerCtr := 0, hasRecognition := true, apiAvailable := true }
    "not-allowed" (Or.inl rfl) rfl
  exact ⟨h.1, h.2.2.2.2.2.2 3⟩

/-! ## Claims C8 and C9: the answer stream -/

/-- A non-matching turn is untouched by the chunk update. -/
theorem appendChunkTurn_ne {tid c : String} {t : ConversationTurn}
    (h : t.id ≠ tid) : appendChunkTurn tid c t = t := by
  unfold appendChunkTurn
  rw [if_neg h]

/-- A non-matching turn is untouched by the error update. -/
theorem streamErrTurn_ne {tid msg : String} {t : ConversationTurn}
    (h : t.id ≠ tid) : streamErrTurn tid msg t = t := by
  unfold streamErrTurn
  rw [if_neg h]

/-- A non-matching turn is untouched by the completion update. -/
theorem streamDoneTurn_ne {tid : String} {t : ConversationTurn}
    (h : t.id ≠ tid) : streamDoneTurn tid t = t := by
  unfold streamDoneTurn
  rw [if_neg h]

/-- Mapping a per-turn update that fixes non-matching turns over a list with
no matching turn is the identity. -/
theorem map_turn_id {conv : List ConversationTurn} {tid : String}
    (f : ConversationTurn → ConversationTurn)
    (hf : ∀ t : ConversationTurn, t.id ≠ tid → f t = t)
    (h : ∀ t ∈ conv, t.id ≠ tid) : conv.map f = conv := by
  induction conv with
  | nil => rfl
  | cons t ts ih =>
    rw [List.map_cons, hf t (h t (List.mem_cons_self t ts)),
      ih fun x hx => h x (List.mem_cons_of_mem t hx)]

/-- Folding the chunk updates over a log whose only matching turn is last
appends the concatenation of the chunks to that turn's answer. -/
theorem foldl_appendChunk {tid : String} {pre : List ConversationTurn}
    (hpre : ∀ t ∈ pre, t.id ≠ tid) :
    ∀ (chunks : List String) (uu a : String) (er : Option String) (isP : Bool),
      chunks.foldl (fun c ch => appendChunk c tid ch)
          (pre ++ [⟨tid, uu, some a, er, isP⟩]) =
        pre ++ [⟨tid, uu, some (chunks.foldl (fun x s => x ++ s) a), er, isP⟩]
  | [], uu, a, er, isP => rfl
  | ch :: chunks, uu, a, er, isP => by
    rw [List.foldl_cons, List.foldl_cons]
    by_cases hch : ch = ""
    · subst hch
      rw [String.append_empty]
      have hskip : appendChunk (pre ++ [⟨tid, uu, some a, er, isP⟩]) tid "" =
          pre ++ [⟨tid, uu, some a, er, isP⟩] := by
        simp [appendChunk]
      rw [hskip]
      exact foldl_appendChunk hpre chunks uu a er isP
    · have happ : appendChunk (pre ++ [⟨tid, uu, some a, er, isP⟩]) tid ch =
          pre ++ [⟨tid, uu, some (a ++ ch), er, isP⟩] := by
        unfold appendChunk
        rw [if_pos hch,
          List.map_append, map_turn_id _ (fun t ht => appendChunkTurn_ne ht) hpre]
        simp [appendChunkTurn]
      rw [happ]
      exact foldl_appendChunk hpre chunks uu (a ++ ch) er isP

/-- The completion update on a log whose only matching turn is last. -/
theorem streamDone_append {tid : String} {pre : List ConversationTurn}
    (hpre : ∀ t ∈ pre, t.id ≠ tid) (uu : String) (ans er : Option String)
    (isP : Bool) :
    streamDone (pre ++ [⟨tid, uu, ans, er, isP⟩]) tid =
      pre ++ [⟨tid, uu, ans, er, false⟩] := by
  unfold streamDone
  rw [List.map_append, map_turn_id _ (fun t ht => streamDoneTurn_ne ht) hpre]
  simp [streamDoneTurn]

/-- The error update on a log whose only matching turn is last. -/
theorem streamError_append {tid msg : String} {pre : List ConversationTurn}
    (hpre : ∀ t ∈ pre, t.id ≠ tid) (uu : String) (ans er : Option String)
    (isP : Bool) :
    streamError (pre ++ [⟨tid, uu, ans, er, isP⟩]) tid msg =
      pre ++ [⟨tid, uu, ans, some msg, false⟩] := by
  unfold streamError
  rw [List.map_append, map_turn_id _ (fun t ht => streamErrTurn_ne ht) hpre]
  simp [streamErrTurn]

/--
C8: for a turn created by the finalized-utterance effect and appended to a
log whose other turns all have a different id, a stream that yields its
fragments and completes leaves the turn with answer equal to the
concatenation of the fragments in yield order (each appended, none
replacing), `isProcessingAnswer` false and `answerError` still `none`; and a
stream that fails after yielding some fragments leaves the already-appended
fragments in the answer, sets `answerError` to the message and
`isProcessingAnswer` to false.
-/
theorem claim_C8_theorem (pre : List ConversationTurn) (nowMs : Nat)
    (u : String) (chunks yielded : List String) (msg : String)
    (hpre : ∀ t ∈ pre, t.id ≠ (mkTurn nowMs u).id) :
    processStreamOk (pre ++ [mkTurn nowMs u]) (mkTurn nowMs u).id chunks =
      pre ++ [⟨(mkTurn nowMs u).id, u, some (strJoin chunks), none, false⟩] ∧
    processStreamErr (pre ++ [mkTurn nowMs u]) (mkTurn nowMs u).id yielded msg =
      pre ++ [⟨(mkTurn nowMs u).id, u, some (strJoin yielded), some msg,
        false⟩] := by
  simp only [mkTurn] at hpre ⊢
  unfold processStreamOk processStreamErr
  simp only [strJoin]
  constructor
  · rw [foldl_appendChunk hpre chunks u "" none true,
      streamDone_append hpre u
        (some (chunks.foldl (fun x s => x ++ s) "")) none true]
  · rw [foldl_appendChunk hpre yielded u "" none true,
      streamError_append hpre u
        (some (yielded.foldl (fun x s => x ++ s) "")) none true,
      streamDone_append hpre u
        (some (yielded.foldl (fun x s => x ++ s) "")) (some msg) false]

/--
C8 witness: fragments "Par" then "is" followed by completion yield answer
"Paris" with `isProcessingAnswer` false and `answerError` null.
-/
theorem claim_C8_witness :
    processStreamOk ([] ++ [mkTurn 1 "capital of France"])
        (mkTurn 1 "capital of France").id ["Par", "is"] =
      [] ++ [⟨(mkTurn 1 "capital of France").id, "capital of France",
        some "Paris", none, false⟩] := by
  have h := (claim_C8_theorem [] 1 "capital of France" ["Par", "is"] [] ""
    (by simp)).1
  rw [h]
  decide

/--
C9: every answer-stream update (chunk append, error attachment, completion
flag) is keyed solely by the turn id captured at creation: non-matching
turns are returned unchanged and matching turns keep their id and utterance,
each list update acting pointwise at every position; and because the id is
the creation timestamp in milliseconds rendered as a decimal string, two
turns created within the same millisecond receive equal ids, and a chunk
update for that id appends the chunk to both turns' answers.
-/
theorem claim_C9_theorem (tid c msg : String) :
    (∀ t : ConversationTurn, t.id ≠ tid →
      appendChunkTurn tid c t = t ∧ streamErrTurn tid msg t = t ∧
      streamDoneTurn tid t = t) ∧
    (∀ t : ConversationTurn,
      (appendChunkTurn tid c t).id = t.id ∧
      (appendChunkTurn tid c t).utterance = t.utterance ∧
      (streamErrTurn tid msg t).id = t.id ∧
      (streamErrTurn tid msg t).utterance = t.utterance ∧
      (streamDoneTurn tid t).id = t.id ∧
      (streamDoneTurn tid t).utterance = t.utterance) ∧
    (∀ (conv : List ConversationTurn) (i : Nat),
      (appendChunk conv tid c)[i]? =
        (if c ≠ "" then (conv[i]?).map (appendChunkTurn tid c)
         else conv[i]?) ∧
      (streamError conv tid msg)[i]? = (conv[i]?).map (streamErrTurn tid msg) ∧
      (streamDone conv tid)[i]? = (conv[i]?).map (streamDoneTurn tid)) ∧
    (∀ (nowMs : Nat) (u1 u2 : String),
      (mkTurn nowMs u1).id = (mkTurn nowMs u2).id) ∧
    (∀ t1 t2 : ConversationTurn, t1.id = tid → t2.id = tid → c ≠ "" →
      appendChunk [t1, t2] tid c =
        [{ t1 with answer := some ((t1.answer.getD "") ++ c) },
         { t2 with answer := some ((t2.answer.getD "") ++ c) }]) := by
  refine ⟨?_, ?_, ?_, fun nowMs u1 u2 => rfl, ?_⟩
  · intro t ht
    exact ⟨appendChunkTurn_ne ht, streamErrTurn_ne ht, streamDoneTurn_ne ht⟩
  · intro t
    unfold appendChunkTurn streamErrTurn streamDoneTurn
    by_cases ht : t.id = tid <;> simp [ht]
  · intro conv i
    unfold appendChunk streamError streamDone
    by_cases hc : c = "" <;> simp [hc, List.getElem?_map]
  · intro t1 t2 h1 h2 hc
    unfold appendChunk
    rw [if_pos hc]
    unfold appendChunkTurn
    simp [h1, h2]

/--
C9 witness: two turns created at the same millisecond share an id, and one
chunk update for that id appends to both answers.
-/
theorem claim_C9_witness :
    appendChunk [mkTurn 7 "first", mkTurn 7 "second"] "7" "x" =
      [{ mkTurn 7 "first" with answer := some "x" },
       { mkTurn 7 "second" with answer := some "x" }] := by
  have h9 := claim_C9_theorem "7" "x" "e"
  have h := h9.2.2.2.2
    (mkTurn 7 "first") (mkTurn 7 "second") (by decide) (by decide) (by decide)
  rw [h]
  decide

/-! ## Claim C10: the finalized-utterance invariant over all reachable states -/

/-- `processCurrentUtterance` leaves the finalized utterance unchanged or
publishes the non-empty trim of the accumulated text. -/
theorem pcu_finalized (st : HookState) :
    (processCurrentUtterance st).1.finalizedUtterance = st.finalizedUtterance ∨
    ((processCurrentUtterance st).1.finalizedUtterance =
        jsTrim st.currentUtterance ∧
      jsTrim st.currentUtterance ≠ "") := by
  rw [pcu_spec]
  by_cases h : jsTrim st.currentUtterance = "" <;> simp [h]

/-- `onresult` never touches the finalized utterance. -/
theorem onresult_finalized (st : HookState) (rs : List SpeechResult) :
    (onresult st rs).finalizedUtterance = st.finalizedUtterance := by
  simp only [onresult]
  split_ifs <;> rfl

/-- Timer expiry leaves the finalized utterance unchanged or publishes the
non-empty trim of the accumulated text. -/
theorem timerFire_finalized (st : HookState) :
    (timerFire st).1.finalizedUtterance = st.finalizedUtterance ∨
    ((timerFire st).1.finalizedUtterance = jsTrim st.currentUtterance ∧
      jsTrim st.currentUtterance ≠ "") := by
  unfold timerFire
  by_cases hs : st.timer.isSome = true
  · rw [if_pos hs]
    exact pcu_finalized st
  · rw [if_neg hs]
    exact Or.inl rfl

/-- `onerror` leaves the finalized utterance unchanged or (on a permission
error) publishes the non-empty trim of the accumulated text. -/
theorem onerror_finalized (st : HookState) (code : String) :
    (onerror st code).1.finalizedUtterance = st.finalizedUtterance ∨
    ((onerror st code).1.finalizedUtterance = jsTrim st.currentUtterance ∧
      jsTrim st.currentUtterance ≠ "") := by
  by_cases h2 : code = "not-allowed" ∨ code = "service-not-allowed"
  · rw [onerror_denied_spec st code h2]
    by_cases ht : jsTrim st.currentUtterance = "" <;> simp [ht]
  · unfold onerror
    by_cases h1 : code = "no-speech" <;> simp [h1, h2]

/-- `onend` leaves the finalized utterance unchanged or flushes the
non-empty trim of the accumulated text. -/
theorem onend_finalized (st : HookState) :
    (onend st).1.finalizedUtterance = st.finalizedUtterance ∨
    ((onend st).1.finalizedUtterance = jsTrim st.currentUtterance ∧
      jsTrim st.currentUtterance ≠ "") := by
  rw [onend_spec]
  by_cases hm : st.manualStop
  · simp [hm]
  · rw [Bool.not_eq_true] at hm
    have hp := pcu_finalized { st with isListening := false }
    by_cases hc : st.hasPermission ≠ some false ∧ st.hasRecognition = true
    · rw [if_neg (by simp [hm]), if_pos hc]
      exact hp
    · rw [if_neg (by simp [hm]), if_neg hc]
      exact hp

/-- `startListening` always resets the finalized utterance. -/
theorem startListening_finalized (st : HookState) :
    (startListening st).1.finalizedUtterance = "" := by
  simp only [startListening]
  split_ifs <;> rfl

/-- `stopListening` leaves the finalized utterance unchanged or flushes the
non-empty trim of the accumulated text. -/
theorem stopListening_finalized (st : HookState) :
    (stopListening st).1.finalizedUtterance = st.finalizedUtterance ∨
    ((stopListening st).1.finalizedUtterance = jsTrim st.currentUtterance ∧
      jsTrim st.currentUtterance ≠ "") := by
  simp only [stopListening, stopListeningPre]
  have hp := pcu_finalized { st with manualStop := true, timer := none }
  by_cases hg : st.hasRecognition = true ∧ st.isListening = true
  · rw [if_pos (by simpa using hg)]
    exact hp
  · rw [if_neg (by simpa using hg)]
    exact hp

/-- The well-formedness transfer: a string that is the old finalized value
or a fresh non-empty trim satisfies the invariant. -/
theorem inv_of_cases {x : String} {st : HookState}
    (hc : x = st.finalizedUtterance ∨
      (x = jsTrim st.currentUtterance ∧ jsTrim st.currentUtterance ≠ ""))
    (h : st.finalizedUtterance = "" ∨
      (jsTrim st.finalizedUtterance = st.finalizedUtterance ∧
       st.finalizedUtterance ≠ "")) :
    x = "" ∨ (jsTrim x = x ∧ x ≠ "") := by
  rcases hc with h1 | ⟨h1, h2⟩
  · rw [h1]
    exact h
  · rw [h1]
    exact Or.inr ⟨jsTrim_idem _, h2⟩

/-- One hook step preserves the finalized-utterance invariant. -/
theorem finalized_inv_step (st : HookState) (e : HookEvent)
    (h : st.finalizedUtterance = "" ∨
      (jsTrim st.finalizedUtterance = st.finalizedUtterance ∧
       st.finalizedUtterance ≠ "")) :
    (step st e).1.finalizedUtterance = "" ∨
    (jsTrim (step st e).1.finalizedUtterance =
        (step st e).1.finalizedUtterance ∧
      (step st e).1.finalizedUtterance ≠ "") := by
  cases e with
  | result rs => exact inv_of_cases (Or.inl (onresult_finalized st rs)) h
  | timerExpiry => exact inv_of_cases (timerFire_finalized st) h
  | errEvt code => exact inv_of_cases (onerror_finalized st code) h
  | endEvt => exact inv_of_cases (onend_finalized st) h
  | startReq => exact Or.inl (startListening_finalized st)
  | stopReq => exact inv_of_cases (stopListening_finalized st) h
  | clearReq => exact Or.inl rfl

/-- Any run of hook events preserves the finalized-utterance invariant. -/
theorem finalized_inv_run :
    ∀ (evts : List HookEvent) (st : HookState),
      (st.finalizedUtterance = "" ∨
        (jsTrim st.finalizedUtterance = st.finalizedUtterance ∧
         st.finalizedUtterance ≠ "")) →
      ((run st evts).1.finalizedUtterance = "" ∨
        (jsTrim (run st evts).1.finalizedUtterance =
            (run st evts).1.finalizedUtterance ∧
          (run st evts).1.finalizedUtterance ≠ ""))
  | [], _, h => h
  | e :: es, st, h =>
    finalized_inv_run es (step st e).1 (finalized_inv_step st e h)

/--
C10: at every state reachable from the initial hook state by any sequence of
events, the published finalized utterance is a plain string, either empty
(no pending utterance) or non-empty and equal to its own whitespace-trim;
and `clearFinalizedUtterance` resets exactly the finalized utterance to the
empty string, changing no other field.
-/
theorem claim_C10_theorem (api : Bool) (evts : List HookEvent)
    (st : HookState) :
    ((run (initState api) evts).1.finalizedUtterance = "" ∨
      (jsTrim (run (initState api) evts).1.finalizedUtterance =
          (run (initState api) evts).1.finalizedUtterance ∧
        (run (initState api) evts).1.finalizedUtterance ≠ "")) ∧
    clearFinalizedUtterance st = { st with finalizedUtterance := "" } :=
  ⟨finalized_inv_run evts (initState api) (Or.inl rfl), rfl⟩

/--
C10 witness: after one spoken batch and a timer expiry from the initial
state, the finalized utterance satisfies the invariant.
-/
theorem claim_C10_witness :
    ((run (initState true)
        [HookEvent.result [{ isFinal := true, transcript := " hi " }],
         HookEvent.timerExpiry]).1.finalizedUtterance = "" ∨
      (jsTrim (run (initState true)
          [HookEvent.result [{ isFinal := true, transcript := " hi " }],
           HookEvent.timerExpiry]).1.finalizedUtterance =
        (run (initState true)
          [HookEvent.result [{ isFinal := true, transcript := " hi " }],
           HookEvent.timerExpiry]).1.finalizedUtterance ∧
        (run (initState true)
          [HookEvent.result [{ isFinal := true, transcript := " hi " }],
           HookEvent.timerExpiry]).1.finalizedUtterance ≠ "")) :=
  (claim_C10_theorem true
    [HookEvent.result [{ isFinal := true, transcript := " hi " }],
     HookEvent.timerExpiry] (initState true)).1

/-! ## Claim C1 -/

/-- The empty string trims to itself. -/
theorem jsTrim_empty : jsTrim "" = "" := rfl

/-- Concatenated finals of a batch sequence, unfolded one batch. -/
theorem concatFinals_cons (b : List SpeechResult)
    (bs : List (List SpeechResult)) :
    concatFinals (b :: bs) = batchFinalText b ++ concatFinals bs := by
  unfold concatFinals
  rw [List.foldl_cons,
    foldl_accumulate (fun a x => a ++ batchFinalText x) (fun a x => by simp)
      bs ("" ++ batchFinalText b)]
  simp

/-- A run splits over concatenation of event lists. -/
theorem run_append (st : HookState) (l1 l2 : List HookEvent) :
    run st (l1 ++ l2) =
      ((run (run st l1).1 l2).1,
       (run st l1).2 ++ (run (run st l1).1 l2).2) := by
  induction l1 generalizing st with
  | nil => simp [run]
  | cons e es ih =>
    simp only [List.cons_append, run, List.append_eq]
    rw [ih (step st e).1]
    simp [List.append_assoc]

/-- A run of all-final result batches emits no action, appends the
concatenated final text to the accumulator, leaves the timer armed exactly
when it was armed before or some final text arrived, and leaves the
finalized utterance untouched. -/
theorem run_allFinal :
    ∀ (batches : List (List SpeechResult)), allFinal batches →
      ∀ st : HookState,
        (run st (batches.map HookEvent.result)).2 = [] ∧
        (run st (batches.map HookEvent.result)).1.currentUtterance =
          st.currentUtterance ++ concatFinals batches ∧
        ((run st (batches.map HookEvent.result)).1.timer.isSome = true ↔
          (st.timer.isSome = true ∨ concatFinals batches ≠ "")) ∧
        (run st (batches.map HookEvent.result)).1.finalizedUtterance =
          st.finalizedUtterance
  | [], _, st => by
    refine ⟨rfl, ?_, ?_, rfl⟩
    · show st.currentUtterance = st.currentUtterance ++ concatFinals []
      simp [concatFinals]
    · show st.timer.isSome = true ↔
        (st.timer.isSome = true ∨ concatFinals [] ≠ "")
      simp [concatFinals]
  | b :: bs, h, st => by
    have hb : ∀ r ∈ b, r.isFinal = true := h b (List.mem_cons_self b bs)
    have hbs : allFinal bs := fun x hx => h x (List.mem_cons_of_mem b hx)
    have hres := onresult_allFinal hb st
    rw [concatFinals_cons]
    simp only [List.map_cons, run, step]
    by_cases hf : batchFinalText b = ""
    · rw [if_pos hf] at hres
      rw [hres, hf, String.empty_append]
      have ih := run_allFinal bs hbs { st with interimTranscript := "" }
      exact ih
    · rw [if_neg hf] at hres
      rw [hres]
      have ih := run_allFinal bs hbs
        { st with
            interimTranscript := ""
            currentUtterance := st.currentUtterance ++ batchFinalText b
            timer := some st.timerCtr
            timerCtr := st.timerCtr + 1 }
      have hne : batchFinalText b ++ concatFinals bs ≠ "" := fun hh =>
        hf (strAppend_eq_empty.mp hh).1
      refine ⟨ih.1, ?_, ?_, ih.2.2.2⟩
      · rw [← String.append_assoc]
        exact ih.2.1
      · exact ⟨fun _ => Or.inr hne, fun _ => ih.2.2.1.mpr (Or.inl rfl)⟩

/--
C1 (amended): for every sequence of result batches containing only final
transcript fragments, each arriving before the silence timer expires, once
the timer finally fires at most one utterance is finalized: exactly one,
equal to the whitespace-trimmed concatenation of all final fragments in
arrival order, when that concatenation trims to a non-empty string, and none
at all when it trims to empty (for example when every fragment is pure
whitespace).
-/
theorem claim_C1_theorem (batches : List (List SpeechResult))
    (h : allFinal batches) (st : HookState)
    (hcur : st.currentUtterance = "") (htimer : st.timer = none) :
    publications
        (run st (batches.map HookEvent.result ++ [HookEvent.timerExpiry])).2 =
      (if jsTrim (concatFinals batches) = "" then []
       else [jsTrim (concatFinals batches)]) ∧
    (jsTrim (concatFinals batches) ≠ "" →
      (run st
          (batches.map HookEvent.result ++
            [HookEvent.timerExpiry])).1.finalizedUtterance =
        jsTrim (concatFinals batches)) := by
  have hr := run_allFinal batches h st
  have hcur1 : (run st (batches.map HookEvent.result)).1.currentUtterance =
      concatFinals batches := by
    rw [hr.2.1, hcur, String.empty_append]
  have hiff : ((run st (batches.map HookEvent.result)).1.timer.isSome = true) ↔
      concatFinals batches ≠ "" := by
    rw [hr.2.2.1, htimer]
    simp
  rw [run_append, hr.1]
  simp only [run, step, List.append_nil, List.nil_append]
  unfold timerFire
  by_cases hcf : concatFinals batches = ""
  · have hts : ¬ ((run st
        (batches.map HookEvent.result)).1.timer.isSome = true) :=
      fun hh => (hiff.mp hh) hcf
    rw [if_neg hts]
    constructor
    · rw [hcf, jsTrim_empty, if_pos rfl]
      rfl
    · intro hx
      rw [hcf, jsTrim_empty] at hx
      exact absurd rfl hx
  · have hts : (run st (batches.map HookEvent.result)).1.timer.isSome = true :=
      hiff.mpr hcf
    rw [if_pos hts, pcu_spec, hcur1]
    by_cases ht : jsTrim (concatFinals batches) = ""
    · rw [if_pos ht, if_pos ht]
      exact ⟨rfl, fun hx => absurd ht hx⟩
    · rw [if_neg ht, if_neg ht]
      exact ⟨rfl, fun _ => rfl⟩

/--
C1 witness: two all-final batches "hello " and "world" arriving inside the
silence window, then timer expiry, publish exactly one utterance,
"hello world".
-/
theorem claim_C1_witness :
    publications
        (run (initState true)
          ([[({ isFinal := true, transcript := "hello " } : SpeechResult)],
            [({ isFinal := true, transcript := "world" } : SpeechResult)]].map
              HookEvent.result ++ [HookEvent.timerExpiry])).2 =
      ["hello world"] := by
  have h := (claim_C1_theorem
    [[{ isFinal := true, transcript := "hello " }],
     [{ isFinal := true, transcript := "world" }]]
    (by decide) (initState true) rfl rfl).1
  rw [h]
  decide

/--
C1 counterexample: the claim as stated is false on the code.  A single batch
whose only fragment is the final whitespace string " ", followed by timer
expiry, finalizes no utterance at all (the publication trace is empty),
while the claim requires exactly one finalized utterance.
-/
theorem claim_C1_counterexample :
    publications
        (run (initState true)
          [HookEvent.result [{ isFinal := true, transcript := " " }],
           HookEvent.timerExpiry]).2 = [] := by
  decide

/-! ## Claim C2 -/

/--
C2 (amended): calling `startListening` while already listening never invokes
the handle's `start()`, and calling it while permission is denied (with a
handle present and not listening) surfaces a permission error and never
invokes `start()`; but in both cases the segmentation state is reset rather
than left unchanged: the manual-stop flag is cleared and the accumulated
final text, the interim transcript and the finalized-utterance slot are all
set to the empty string before those checks run.
-/
theorem claim_C2_theorem (st : HookState) :
    (st.isListening = true →
      Output.recStart ∉ (startListening st).2 ∧
      (startListening st).1.manualStop = false ∧
      (startListening st).1.currentUtterance = "" ∧
      (startListening st).1.interimTranscript = "" ∧
      (startListening st).1.finalizedUtterance = "") ∧
    (st.hasPermission = some false →
      Output.recStart ∉ (startListening st).2 ∧
      (st.hasRecognition = true → st.isListening = false →
        (startListening st).1.error = some cannotStartDeniedMsg) ∧
      (startListening st).1.manualStop = false ∧
      (startListening st).1.currentUtterance = "" ∧
      (startListening st).1.interimTranscript = "" ∧
      (startListening st).1.finalizedUtterance = "") := by
  unfold startListening
  by_cases hl : st.isListening <;> by_cases hp : st.hasPermission = some false <;>
    by_cases hr : st.hasRecognition <;> by_cases ha : st.apiAvailable <;>
      simp [hl, hp, hr, ha]

/--
C2 witness: in a concrete listening state with accumulated text the
handle's `start()` is not invoked.
-/
theorem claim_C2_witness :
    Output.recStart ∉
      (startListening
        { isListening := true, interimTranscript := "ing",
          finalizedUtterance := "old", error := none,
          hasPermission := some true, manualStop := false,
          currentUtterance := "hi", timer := none, timerCtr := 0,
          hasRecognition := true, apiAvailable := true }).2 :=
  ((claim_C2_theorem
      { isListening := true, interimTranscript := "ing",
        finalizedUtterance := "old", error := none,
        hasPermission := some true, manualStop := false,
        currentUtterance := "hi", timer := none, timerCtr := 0,
        hasRecognition := true, apiAvailable := true }).1 rfl).1

/--
C2 counterexample: the claim as stated is false on the code.  In a state
with permission denied (not listening, handle present) whose accumulated
final text is "hi", calling `startListening` empties the accumulated text:
the segmentation state is not left unchanged.
-/
theorem claim_C2_counterexample :
    (startListening
        { isListening := false, interimTranscript := "ing",
          finalizedUtterance := "old", error := none,
          hasPermission := some false, manualStop := true,
          currentUtterance := "hi", timer := none, timerCtr := 0,
          hasRecognition := true, apiAvailable := true }).1.currentUtterance = "" ∧
    ({ isListening := false, interimTranscript := "ing",
        finalizedUtterance := "old", error := none,
        hasPermission := some false, manualStop := true,
        currentUtterance := "hi", timer := none, timerCtr := 0,
        hasRecognition := true, apiAvailable := true } :
      HookState).currentUtterance = "hi" := by
  decide
